import Mathlib

set_option maxRecDepth 8000

/-!
Shallow embedding of the nrbt command sequencer (src/main.rs) and proofs
about its parsing, sequencing, error handling and report rendering.

External process execution is modelled by an oracle (`Env`) that answers
every spawn request, together with an event trace (`Ev`) recording, in
order, every blocking run and every detached spawn the sequencer performs.
-/

namespace Nrbt

/-- Operator kind attached to a segment (Rust enum `CmdKind`): the operator
that links this segment to the NEXT one; `Single` when there is none. -/
inductive CmdKind
  | Single
  | Pipe
  | And
  | SemiCol
  deriving DecidableEq, Repr

/-- One parsed segment (Rust struct `Cmd`): its trailing operator and the
raw text captured for it by the segmenter. -/
structure Cmd where
  kind : CmdKind
  cmd_line : String
  deriving DecidableEq, Repr

/-- The running result aggregate (Rust struct `CmdReturn`). Output buffers
are modelled as strings (the Rust byte buffers, with lossy UTF-8 decoding
being the identity on the valid UTF-8 data all claims are about). -/
structure CmdReturn where
  status : Option Int
  signal : Option Int
  stderr : String
  stdout : String
  deriving DecidableEq, Repr

/-- Sequencer state (Rust enum `Run`). -/
inductive Run
  | Continue
  | Abort
  deriving DecidableEq, Repr

/-- The error kinds distinguished by `handle_cmd_error` (Rust
`io::ErrorKind`): the two recovered kinds, and everything else. -/
inductive IOErrorKind
  | notFound
  | permissionDenied
  | other
  deriving DecidableEq, Repr

/-- Exit status of a completed process: on Unix exactly one of
`ExitStatus::code` and `ExitStatusExt::signal` is present. -/
inductive ProcStatus
  | exited (code : Int)
  | signaled (sig : Int)
  deriving DecidableEq, Repr

/-- Rust `ExitStatus::code()`. -/
def ProcStatus.code : ProcStatus → Option Int
  | .exited c => some c
  | .signaled _ => none

/-- Rust `ExitStatusExt::signal()`. -/
def ProcStatus.signal : ProcStatus → Option Int
  | .exited _ => none
  | .signaled s => some s

/-- Captured result of a blocking run (Rust `std::process::Output`). -/
structure Output where
  status : ProcStatus
  stdout : String
  stderr : String
  deriving DecidableEq, Repr

/-- Trace event: one OS-level action taken by the sequencer.
`ran prog args stdinFrom res` is a blocking `Command::output()` call
(`res = none` when the spawn itself failed); `spawned id prog args
stdinFrom` is a detached `Command::spawn()` producing child `id`. -/
inductive Ev
  | ran (prog : String) (args : List String) (stdinFrom : Option Nat) (res : Option Output)
  | spawned (id : Nat) (prog : String) (args : List String) (stdinFrom : Option Nat)
  deriving DecidableEq, Repr

/-- Whole-run error: a propagated `io::Error` of the given kind, or a Rust
panic (out-of-bounds index / `unwrap` on `None` / the `Not supported!`
branch of `runCmd`). -/
inductive Err
  | fatal (k : IOErrorKind)
  | panicked
  deriving DecidableEq, Repr

/-- The process-spawning oracle: how the operating system answers a
blocking `output()` call and a detached `spawn()` for a given program and
argument list. -/
structure Env where
  blocking : String → List String → Except IOErrorKind Output
  detached : String → List String → Except IOErrorKind Unit

/-- Full sequencer state threaded through the run: the aggregate, the
pending pipe child (by id), the next fresh child id, and the event trace. -/
structure St where
  ret : CmdReturn
  child : Option Nat
  counter : Nat
  trace : List Ev
  deriving DecidableEq, Repr

instance decEqExcept {α β : Type} [DecidableEq α] [DecidableEq β] :
    DecidableEq (Except α β) := fun a b =>
  match a, b with
  | Except.ok x, Except.ok y =>
    if h : x = y then Decidable.isTrue (by rw [h])
    else Decidable.isFalse (fun hh => h (Except.ok.inj hh))
  | Except.error x, Except.error y =>
    if h : x = y then Decidable.isTrue (by rw [h])
    else Decidable.isFalse (fun hh => h (Except.error.inj hh))
  | Except.ok _, Except.error _ => Decidable.isFalse (fun hh => Except.noConfusion hh)
  | Except.error _, Except.ok _ => Decidable.isFalse (fun hh => Except.noConfusion hh)

/-- Worker for `split_whitespace`: skip whitespace, emit each maximal run
of non-whitespace characters.  The fuel argument only serves termination
and is always ample. -/
def wsTokens : Nat → List Char → List String
  | 0, _ => []
  | _ + 1, [] => []
  | f + 1, c :: cs =>
    if c.isWhitespace then
      wsTokens f cs
    else
      String.mk (c :: cs.takeWhile (fun ch => !ch.isWhitespace)) ::
        wsTokens f (cs.dropWhile (fun ch => !ch.isWhitespace))

/-- Rust `str::split_whitespace` collected into a vector: the maximal
non-whitespace runs of the string, in order, no empty items. -/
def split_whitespace (s : String) : List String :=
  wsTokens (s.length + 1) s.toList

/-- `let mut cmd = split_whitespace(...); let args = cmd.split_off(1);`
yields the program and its arguments; `none` models the panic on an empty
token list. -/
def progArgs (cmd_line : String) : Option (String × List String) :=
  match split_whitespace cmd_line with
  | [] => none
  | p :: args => some (p, args)

/-- Rust `handle_cmd_error` (src/main.rs lines 92-111): absorb NotFound and
PermissionDenied into synthetic 127/126 results with a fixed diagnostic
appended to stderr; re-raise every other kind. -/
def handle_cmd_error (cmd_return : CmdReturn) (error : IOErrorKind) :
    Except IOErrorKind CmdReturn :=
  match error with
  | IOErrorKind.notFound =>
    Except.ok { cmd_return with
      status := some 127
      signal := none
      stderr := cmd_return.stderr ++ "nrbt: command not found" }
  | IOErrorKind.permissionDenied =>
    Except.ok { cmd_return with
      status := some 126
      signal := none
      stderr := cmd_return.stderr ++ "nrbt: permission denied" }
  | e => Except.error e

/-- The `Ok(output)` folding block repeated in `runCmd` and
`run_all_cmd`: overwrite status/signal, append stdout/stderr. -/
def fold_output (cmd_return : CmdReturn) (output : Output) : CmdReturn :=
  { status := output.status.code
    signal := output.status.signal
    stderr := cmd_return.stderr ++ output.stderr
    stdout := cmd_return.stdout ++ output.stdout }

/-- The `match output { Ok => fold, Err => handle_cmd_error? }` block of
`runCmd`, lifted over the sequencer state. -/
def fold_or_handle (st : St) (output : Except IOErrorKind Output) :
    Except Err (Run × St) :=
  match output with
  | Except.ok o => Except.ok (Run.Continue, { st with ret := fold_output st.ret o })
  | Except.error e =>
    match handle_cmd_error st.ret e with
    | Except.ok r => Except.ok (Run.Continue, { st with ret := r })
    | Except.error k => Except.error (Err.fatal k)

/-- Rust `runCmd` (src/main.rs lines 113-191) for segment index i >= 1.
The Rust function receives the slice and the index and reads only
`cmds[indice_current]` and `cmds[indice_current - 1]`, which are passed
here directly.  Faithfully to the source, `Command::output()` is invoked
eagerly (line 124) before the operator checks: the event is recorded
unconditionally, and its result is then used, dropped (current operator
Pipe, or the AndThen abort), or shadowed (previous operator Pipe). -/
def runCmd (env : Env) (cmd_current cmd_last : Cmd) (st : St) :
    Except Err (Run × St) :=
  match progArgs cmd_current.cmd_line with
  | none => Except.error Err.panicked
  | some (prog, args) =>
    let output := env.blocking prog args
    let st1 : St := { st with trace := st.trace ++ [Ev.ran prog args none output.toOption] }
    if cmd_current.kind = CmdKind.Pipe then
      match env.detached prog args with
      | Except.error k => Except.error (Err.fatal k)
      | Except.ok _ =>
        Except.ok (Run.Continue,
          { st1 with
              child := some st1.counter
              counter := st1.counter + 1
              trace := st1.trace ++ [Ev.spawned st1.counter prog args st.child] })
    else
      match cmd_last.kind with
      | CmdKind.SemiCol => fold_or_handle st1 output
      | CmdKind.And =>
        if st1.ret.status = some 1 then
          Except.ok (Run.Abort, { st1 with child := none })
        else
          fold_or_handle st1 output
      | CmdKind.Pipe =>
        match st.child with
        | none => Except.error Err.panicked
        | some c =>
          let output2 := env.blocking prog args
          fold_or_handle
            { st1 with
                trace := st1.trace ++ [Ev.ran prog args (some c) output2.toOption]
                child := none }
            output2
      | CmdKind.Single => Except.error Err.panicked

/-- The `i > 0` iterations of the loop in `run_all_cmd`: process the rest
of the segments, remembering the previous one, stopping on `Abort`. -/
def run_rest (env : Env) (cmd_last : Cmd) (rest : List Cmd) (st : St) :
    Except Err St :=
  match rest with
  | [] => Except.ok st
  | c :: rest' =>
    match runCmd env c cmd_last st with
    | Except.error e => Except.error e
    | Except.ok (Run.Abort, st') => Except.ok st'
    | Except.ok (Run.Continue, st') => run_rest env c rest' st'

/-- The empty initial aggregate of `run_all_cmd`. -/
def st0 : St :=
  { ret := { status := none, signal := none, stderr := "", stdout := "" }
    child := none
    counter := 0
    trace := [] }

/-- Rust `run_all_cmd` (src/main.rs lines 193-235).  The first segment is
handled specially: a Pipe segment is spawned detached, any other segment is
run blocking and its result installed (replacing, not appending); all later
segments go through `runCmd`. -/
def run_all_cmd (env : Env) (cmds : List Cmd) : Except Err St :=
  match cmds with
  | [] => Except.ok st0
  | cmd :: rest =>
    match progArgs cmd.cmd_line with
    | none => Except.error Err.panicked
    | some (prog, args) =>
      if cmd.kind = CmdKind.Pipe then
        match env.detached prog args with
        | Except.error k => Except.error (Err.fatal k)
        | Except.ok _ =>
          run_rest env cmd rest
            { st0 with
                child := some st0.counter
                counter := st0.counter + 1
                trace := [Ev.spawned st0.counter prog args none] }
      else
        let output := env.blocking prog args
        let st1 : St := { st0 with trace := [Ev.ran prog args none output.toOption] }
        match output with
        | Except.ok o =>
          run_rest env cmd rest
            { st1 with ret :=
                { status := o.status.code
                  signal := o.status.signal
                  stderr := o.stderr
                  stdout := o.stdout } }
        | Except.error e =>
          match handle_cmd_error st1.ret e with
          | Except.ok r => run_rest env cmd rest { st1 with ret := r }
          | Except.error k => Except.error (Err.fatal k)

/-- The characters excluded from a segment's text by the character class
of the Rust regex in `parse_cmd_line` (src/main.rs line 238).  Inside a
character class the tokens lose their meta meaning, so the class excludes
the literal characters ( & \x7b 2 \x7d | ; ) rather than the three
operator substrings. -/
def excluded (c : Char) : Bool :=
  c = '(' || c = '&' || c = '{' || c = '2' || c = '}' || c = '|' || c = ';' || c = ')'

/-- The optional separator group of the regex and its mapping to a
`CmdKind` in the `filter_map` of `parse_cmd_line`: a leading "&&", ";" or
"|" is consumed and names the operator; otherwise the segment is
`Single` and nothing is consumed. -/
def sepSplit (l : List Char) : CmdKind × List Char :=
  match l with
  | '&' :: '&' :: rest => (CmdKind.And, rest)
  | ';' :: rest => (CmdKind.SemiCol, rest)
  | '|' :: rest => (CmdKind.Pipe, rest)
  | _ => (CmdKind.Single, l)

/-- One-pass scanner equivalent to `captures_iter` of the regex
`\s*([^(&\x7b2\x7d|;|\|)]+)(&\x7b2\x7d|;|\|)?` with leftmost-first
semantics: greedy `\s*` backtracks one character when the first group
would otherwise be empty, so a whitespace run directly before an excluded
character (or the end) contributes a one-whitespace-character segment. -/
def scan : Nat → List Char → List Cmd
  | 0, _ => []
  | _ + 1, [] => []
  | f + 1, c :: cs =>
    if excluded c then
      scan f cs
    else if c.isWhitespace then
      match cs with
      | [] => [⟨CmdKind.Single, String.mk [c]⟩]
      | d :: _ =>
        if d.isWhitespace then
          scan f cs
        else if excluded d then
          ⟨(sepSplit cs).1, String.mk [c]⟩ :: scan f (sepSplit cs).2
        else
          scan f cs
    else
      let g1 := c :: cs.takeWhile (fun ch => !(excluded ch))
      let after := cs.dropWhile (fun ch => !(excluded ch))
      ⟨(sepSplit after).1, String.mk g1⟩ :: scan f (sepSplit after).2

/-- Rust `parse_cmd_line` (src/main.rs lines 237-273). -/
def parse_cmd_line (cmd_line : String) : List Cmd :=
  scan (cmd_line.length + 1) cmd_line.toList

/-- Rust `make_report` (src/main.rs lines 275-303), one append per
`writeln!`; the duration is its `as_secs()` value. -/
def make_report (cmd_line : String) (cmd_return : CmdReturn)
    (duration_secs : Nat) : String :=
  "Run of command: \"" ++ cmd_line ++ "\"\n" ++
  (match cmd_return.status with
   | some status => "\nExit code: " ++ toString status ++ "\n"
   | none =>
     match cmd_return.signal with
     | some signal => "\nTerminated by signal: " ++ toString signal ++ "\n"
     | none => "") ++
  ("\nDuration: " ++ toString duration_secs ++ " seconds\n") ++
  "\nStdout\n" ++ "------\n" ++ (cmd_return.stdout ++ "\n") ++
  "Stderr\n" ++ "------\n" ++ (cmd_return.stderr ++ "\n")

/-- Contiguous occurrence of `pat` inside a character list. -/
def occursIn (pat : List Char) : List Char → Bool
  | [] => pat.isEmpty
  | c :: rest => pat.isPrefixOf (c :: rest) || occursIn pat rest

/-- A successful blocking result: exit code 0, no output. -/
def okOutput : Output := ⟨ProcStatus.exited 0, "", ""⟩

/-- Concrete oracle used by the counterexamples and evaluations: program
"false" exits 1, program "a" exits 2, program "nosuch" fails to spawn with
NotFound (in both modes), every other program exits 0 silently. -/
def envStd : Env :=
  { blocking := fun prog _ =>
      if prog = "false" then Except.ok ⟨ProcStatus.exited 1, "", ""⟩
      else if prog = "a" then Except.ok ⟨ProcStatus.exited 2, "", ""⟩
      else if prog = "nosuch" then Except.error IOErrorKind.notFound
      else Except.ok okOutput
    detached := fun prog _ =>
      if prog = "nosuch" then Except.error IOErrorKind.notFound
      else Except.ok () }

/-- Exactly one of the aggregate's exit code and signal is present. -/
def exactly_one (r : CmdReturn) : Prop :=
  (r.status ≠ none ∧ r.signal = none) ∨ (r.status = none ∧ r.signal ≠ none)

/-- Aggregate invariant: untouched (both absent) or exactly one present. -/
def agg_inv (r : CmdReturn) : Prop :=
  (r.status = none ∧ r.signal = none) ∨ exactly_one r


/-! ## Helper lemmas -/

theorem mk_cons_ne_empty (c : Char) (l : List Char) : String.mk (c :: l) ≠ "" := by
  intro h
  have h2 : c :: l = ([] : List Char) := congrArg String.data h
  exact List.noConfusion h2

/-- Every text emitted by the scanner is a nonempty string. -/
theorem scan_texts_ne (fuel : Nat) :
    ∀ (l : List Char) (c : Cmd), c ∈ scan fuel l → c.cmd_line ≠ "" := by
  induction fuel with
  | zero =>
    intro l c h
    simp [scan] at h
  | succ f ih =>
    intro l c h
    cases l with
    | nil => simp [scan] at h
    | cons ch cs =>
      rw [scan.eq_def] at h
      simp only [] at h
      by_cases h1 : excluded ch = true
      · simp only [h1, if_true] at h
        exact ih cs c h
      · simp only [h1, if_false, Bool.false_eq_true, ite_false] at h
        by_cases h2 : ch.isWhitespace = true
        · simp only [h2, if_true] at h
          cases cs with
          | nil =>
            simp only [List.mem_singleton] at h
            subst h
            exact mk_cons_ne_empty ch []
          | cons d ds =>
            by_cases h3 : d.isWhitespace = true
            · simp only [h3, if_true] at h
              exact ih (d :: ds) c h
            · simp only [h3, if_false, Bool.false_eq_true, ite_false] at h
              by_cases h4 : excluded d = true
              · simp only [h4, if_true] at h
                rcases List.mem_cons.mp h with h5 | h5
                · subst h5
                  exact mk_cons_ne_empty ch []
                · exact ih _ c h5
              · simp only [h4, if_false, Bool.false_eq_true, ite_false] at h
                exact ih (d :: ds) c h
        · simp only [h2, if_false, Bool.false_eq_true, ite_false] at h
          rcases List.mem_cons.mp h with h5 | h5
          · subst h5
            exact mk_cons_ne_empty ch _
          · exact ih _ c h5


/-- Installing a process outcome always sets exactly one of status/signal. -/
theorem exactly_one_of_status (ps : ProcStatus) (e s : String) :
    exactly_one ⟨ps.code, ps.signal, e, s⟩ := by
  cases ps with
  | exited c =>
    left
    exact ⟨by simp [ProcStatus.code], by simp [ProcStatus.signal]⟩
  | signaled sg =>
    right
    exact ⟨by simp [ProcStatus.code], by simp [ProcStatus.signal]⟩

theorem exactly_one_fold (r : CmdReturn) (o : Output) : exactly_one (fold_output r o) :=
  exactly_one_of_status o.status _ _

theorem handle_ok_exone (r : CmdReturn) (e : IOErrorKind) (r' : CmdReturn)
    (h : handle_cmd_error r e = Except.ok r') : exactly_one r' := by
  cases e <;> simp [handle_cmd_error] at h
  · subst h
    left
    exact ⟨by simp, by simp⟩
  · subst h
    left
    exact ⟨by simp, by simp⟩

theorem handle_err_other (r : CmdReturn) (e : IOErrorKind) (k : IOErrorKind)
    (h : handle_cmd_error r e = Except.error k) : k = IOErrorKind.other := by
  cases e <;> simp [handle_cmd_error] at h
  exact h.symm

theorem foh_ok (st : St) (out : Except IOErrorKind Output) (r : Run) (st' : St)
    (h : fold_or_handle st out = Except.ok (r, st')) :
    r = Run.Continue ∧ exactly_one st'.ret := by
  cases out with
  | ok o =>
    simp [fold_or_handle] at h
    obtain ⟨hr, hst⟩ := h
    refine ⟨hr.symm, ?_⟩
    rw [← hst]
    exact exactly_one_fold st.ret o
  | error e =>
    rw [fold_or_handle] at h
    cases hch : handle_cmd_error st.ret e with
    | ok rr =>
      rw [hch] at h
      simp at h
      obtain ⟨hr, hst⟩ := h
      refine ⟨hr.symm, ?_⟩
      rw [← hst]
      exact handle_ok_exone st.ret e rr hch
    | error k =>
      rw [hch] at h
      simp at h

theorem foh_err (st : St) (out : Except IOErrorKind Output) (er : Err)
    (h : fold_or_handle st out = Except.error er) : er = Err.fatal IOErrorKind.other := by
  cases out with
  | ok o => simp [fold_or_handle] at h
  | error e =>
    rw [fold_or_handle] at h
    cases hh : handle_cmd_error st.ret e with
    | ok rr => rw [hh] at h; simp at h
    | error k =>
      rw [hh] at h
      simp at h
      rw [← h]
      rw [handle_err_other st.ret e k hh]


/-- Case analysis of `runCmd`: the aggregate is preserved or ends with
exactly one of status/signal set; `Abort` happens only when the incoming
status is `some 1` and leaves the aggregate untouched; a non-Pipe segment
that continues always folds an outcome (so exactly one field is set). -/
theorem runCmd_cases (env : Env) (c l : Cmd) (st : St) (r : Run) (st' : St)
    (h : runCmd env c l st = Except.ok (r, st')) :
    (st'.ret = st.ret ∨ exactly_one st'.ret) ∧
    (r = Run.Abort → st.ret.status = some 1 ∧ st'.ret = st.ret) ∧
    (c.kind ≠ CmdKind.Pipe → r = Run.Continue → exactly_one st'.ret) := by
  rw [runCmd] at h
  cases hpa : progArgs c.cmd_line with
  | none => rw [hpa] at h; simp at h
  | some pa =>
    obtain ⟨prog, args⟩ := pa
    rw [hpa] at h
    simp only [] at h
    by_cases hk : c.kind = CmdKind.Pipe
    · rw [if_pos hk] at h
      cases hd : env.detached prog args with
      | error k => rw [hd] at h; simp at h
      | ok u =>
        rw [hd] at h
        simp only [Except.ok.injEq, Prod.mk.injEq] at h
        obtain ⟨hr, hst⟩ := h
        subst hr
        subst hst
        refine ⟨Or.inl rfl, ?_, ?_⟩
        · intro hab; exact absurd hab (by simp)
        · intro hne _; exact absurd hk hne
    · rw [if_neg hk] at h
      cases hl : l.kind with
      | SemiCol =>
        rw [hl] at h
        obtain ⟨hr, hex⟩ := foh_ok _ _ _ _ h
        subst hr
        exact ⟨Or.inr hex, by simp, fun _ _ => hex⟩
      | And =>
        rw [hl] at h
        by_cases hs : st.ret.status = some 1
        · rw [if_pos hs] at h
          simp only [Except.ok.injEq, Prod.mk.injEq] at h
          obtain ⟨hr, hst⟩ := h
          subst hr
          subst hst
          refine ⟨Or.inl rfl, fun _ => ⟨hs, rfl⟩, ?_⟩
          intro _ hcont
          exact absurd hcont (by simp)
        · rw [if_neg hs] at h
          obtain ⟨hr, hex⟩ := foh_ok _ _ _ _ h
          subst hr
          exact ⟨Or.inr hex, by simp, fun _ _ => hex⟩
      | Pipe =>
        rw [hl] at h
        cases hc : st.child with
        | none => rw [hc] at h; simp at h
        | some cid =>
          rw [hc] at h
          simp only [] at h
          obtain ⟨hr, hex⟩ := foh_ok _ _ _ _ h
          subst hr
          exact ⟨Or.inr hex, by simp, fun _ _ => hex⟩
      | Single =>
        rw [hl] at h
        simp at h

/-- Errors escaping `runCmd` on a non-Pipe segment are panics or the
propagated non-recoverable kind. -/
theorem runCmd_err (env : Env) (c l : Cmd) (st : St) (er : Err)
    (hk : c.kind ≠ CmdKind.Pipe)
    (h : runCmd env c l st = Except.error er) :
    er = Err.panicked ∨ er = Err.fatal IOErrorKind.other := by
  rw [runCmd] at h
  cases hpa : progArgs c.cmd_line with
  | none =>
    rw [hpa] at h
    simp at h
    exact Or.inl h.symm
  | some pa =>
    obtain ⟨prog, args⟩ := pa
    rw [hpa] at h
    simp only [] at h
    rw [if_neg hk] at h
    cases hl : l.kind with
    | SemiCol =>
      rw [hl] at h
      exact Or.inr (foh_err _ _ _ h)
    | And =>
      rw [hl] at h
      by_cases hs : st.ret.status = some 1
      · rw [if_pos hs] at h; simp at h
      · rw [if_neg hs] at h
        exact Or.inr (foh_err _ _ _ h)
    | Pipe =>
      rw [hl] at h
      cases hc : st.child with
      | none =>
        rw [hc] at h
        simp at h
        exact Or.inl h.symm
      | some cid =>
        rw [hc] at h
        simp only [] at h
        exact Or.inr (foh_err _ _ _ h)
    | Single =>
      rw [hl] at h
      simp at h
      exact Or.inl h.symm


theorem run_rest_ret (env : Env) :
    ∀ (rest : List Cmd) (l : Cmd) (st st' : St),
      run_rest env l rest st = Except.ok st' →
      st'.ret = st.ret ∨ exactly_one st'.ret := by
  intro rest
  induction rest with
  | nil =>
    intro l st st' h
    rw [run_rest] at h
    simp at h
    rw [← h]
    exact Or.inl rfl
  | cons c rest' ih =>
    intro l st st' h
    rw [run_rest] at h
    cases hrc : runCmd env c l st with
    | error e => rw [hrc] at h; simp at h
    | ok p =>
      obtain ⟨r, st₁⟩ := p
      rw [hrc] at h
      have hc := (runCmd_cases env c l st r st₁ hrc).1
      cases r with
      | Abort =>
        simp at h
        rw [← h]
        exact hc
      | Continue =>
        rcases ih c st₁ st' h with h1 | h1
        · rw [h1]
          exact hc
        · exact Or.inr h1

theorem run_rest_exone (env : Env) :
    ∀ (rest : List Cmd) (l : Cmd) (st st' : St),
      exactly_one st.ret →
      run_rest env l rest st = Except.ok st' →
      exactly_one st'.ret := by
  intro rest
  induction rest with
  | nil =>
    intro l st st' hx h
    rw [run_rest] at h
    simp at h
    rw [← h]
    exact hx
  | cons c rest' ih =>
    intro l st st' hx h
    rw [run_rest] at h
    cases hrc : runCmd env c l st with
    | error e => rw [hrc] at h; simp at h
    | ok p =>
      obtain ⟨r, st₁⟩ := p
      rw [hrc] at h
      have hc : exactly_one st₁.ret := by
        rcases (runCmd_cases env c l st r st₁ hrc).1 with h1 | h1
        · rw [h1]; exact hx
        · exact h1
      cases r with
      | Abort =>
        simp at h
        rw [← h]
        exact hc
      | Continue =>
        exact ih c st₁ st' hc h

theorem run_rest_reach (env : Env) :
    ∀ (rest : List Cmd) (l : Cmd) (st st' : St),
      agg_inv st.ret →
      (∃ c0, c0 ∈ rest ∧ c0.kind ≠ CmdKind.Pipe) →
      run_rest env l rest st = Except.ok st' →
      exactly_one st'.ret := by
  intro rest
  induction rest with
  | nil =>
    intro l st st' _ hex _
    obtain ⟨c0, hmem, _⟩ := hex
    exact absurd hmem (List.not_mem_nil c0)
  | cons c rest' ih =>
    intro l st st' hinv hex h
    rw [run_rest] at h
    cases hrc : runCmd env c l st with
    | error e => rw [hrc] at h; simp at h
    | ok p =>
      obtain ⟨r, st₁⟩ := p
      rw [hrc] at h
      have hcases := runCmd_cases env c l st r st₁ hrc
      cases r with
      | Abort =>
        simp at h
        obtain ⟨hs1, hret⟩ := hcases.2.1 rfl
        have hx : exactly_one st.ret := by
          rcases hinv with ⟨hs0, _⟩ | hE
          · rw [hs0] at hs1; exact absurd hs1 (by simp)
          · exact hE
        rw [← h, hret]
        exact hx
      | Continue =>
        by_cases hck : c.kind = CmdKind.Pipe
        · obtain ⟨c0, hmem, hk0⟩ := hex
          rcases List.mem_cons.mp hmem with h5 | h5
          · subst h5
            exact absurd hck hk0
          · have hinv1 : agg_inv st₁.ret := by
              rcases hcases.1 with h1 | h1
              · rw [h1]; exact hinv
              · exact Or.inr h1
            exact ih c st₁ st' hinv1 ⟨c0, h5, hk0⟩ h
        · have hx1 : exactly_one st₁.ret := hcases.2.2 hck rfl
          exact run_rest_exone env rest' c st₁ st' hx1 h

theorem run_rest_err (env : Env) :
    ∀ (rest : List Cmd) (l : Cmd) (st : St) (er : Err),
      (∀ c0, c0 ∈ rest → c0.kind ≠ CmdKind.Pipe) →
      run_rest env l rest st = Except.error er →
      er = Err.panicked ∨ er = Err.fatal IOErrorKind.other := by
  intro rest
  induction rest with
  | nil =>
    intro l st er _ h
    rw [run_rest] at h
    simp at h
  | cons c rest' ih =>
    intro l st er hp h
    rw [run_rest] at h
    cases hrc : runCmd env c l st with
    | error e =>
      rw [hrc] at h
      simp at h
      rw [← h]
      exact runCmd_err env c l st e (hp c (List.mem_cons_self c rest')) hrc
    | ok p =>
      obtain ⟨r, st₁⟩ := p
      rw [hrc] at h
      cases r with
      | Abort => simp at h
      | Continue =>
        exact ih c st₁ er (fun c0 hm => hp c0 (List.mem_cons_of_mem c hm)) h

/-- Invariant of a completed run: the aggregate is untouched or has exactly
one of status/signal; and it is touched as soon as any segment is not
Pipe-linked. -/
theorem run_all_ok_inv (env : Env) (cmds : List Cmd) (st' : St)
    (h : run_all_cmd env cmds = Except.ok st') :
    agg_inv st'.ret ∧
    ((∃ c0, c0 ∈ cmds ∧ c0.kind ≠ CmdKind.Pipe) → exactly_one st'.ret) := by
  cases cmds with
  | nil =>
    rw [run_all_cmd] at h
    simp at h
    constructor
    · rw [← h]
      exact Or.inl ⟨rfl, rfl⟩
    · intro hex
      obtain ⟨c0, hmem, _⟩ := hex
      exact absurd hmem (List.not_mem_nil c0)
  | cons cmd rest =>
    rw [run_all_cmd] at h
    cases hpa : progArgs cmd.cmd_line with
    | none => rw [hpa] at h; simp at h
    | some pa =>
      obtain ⟨prog, args⟩ := pa
      rw [hpa] at h
      simp only [] at h
      by_cases hk : cmd.kind = CmdKind.Pipe
      · rw [if_pos hk] at h
        cases hd : env.detached prog args with
        | error k => rw [hd] at h; simp at h
        | ok u =>
          rw [hd] at h
          have hinv0 : agg_inv (St.ret
              { st0 with
                  child := some st0.counter
                  counter := st0.counter + 1
                  trace := [Ev.spawned st0.counter prog args none] }) :=
            Or.inl ⟨rfl, rfl⟩
          constructor
          · rcases run_rest_ret env rest cmd _ st' h with h1 | h1
            · rw [h1]; exact hinv0
            · exact Or.inr h1
          · intro hex
            obtain ⟨c0, hmem, hk0⟩ := hex
            rcases List.mem_cons.mp hmem with h5 | h5
            · subst h5; exact absurd hk hk0
            · exact run_rest_reach env rest cmd _ st' hinv0 ⟨c0, h5, hk0⟩ h
      · rw [if_neg hk] at h
        cases hout : env.blocking prog args with
        | ok o =>
          rw [hout] at h
          simp only [] at h
          have hx : exactly_one (CmdReturn.mk o.status.code o.status.signal o.stderr o.stdout) :=
            exactly_one_of_status o.status o.stderr o.stdout
          have hx' := run_rest_exone env rest cmd _ st' hx h
          exact ⟨Or.inr hx', fun _ => hx'⟩
        | error e =>
          rw [hout] at h
          simp only [] at h
          cases hh : handle_cmd_error st0.ret e with
          | ok rr =>
            rw [hh] at h
            have hx : exactly_one rr := handle_ok_exone st0.ret e rr hh
            have hx' := run_rest_exone env rest cmd _ st' hx h
            exact ⟨Or.inr hx', fun _ => hx'⟩
          | error k =>
            rw [hh] at h
            simp at h

/-- When no segment is Pipe-linked, the only errors escaping a whole run
are panics and the non-recoverable kind. -/
theorem run_all_err (env : Env) (cmds : List Cmd) (er : Err)
    (hp : ∀ c0, c0 ∈ cmds → c0.kind ≠ CmdKind.Pipe)
    (h : run_all_cmd env cmds = Except.error er) :
    er = Err.panicked ∨ er = Err.fatal IOErrorKind.other := by
  cases cmds with
  | nil => rw [run_all_cmd] at h; simp at h
  | cons cmd rest =>
    rw [run_all_cmd] at h
    cases hpa : progArgs cmd.cmd_line with
    | none =>
      rw [hpa] at h
      simp at h
      exact Or.inl h.symm
    | some pa =>
      obtain ⟨prog, args⟩ := pa
      rw [hpa] at h
      simp only [] at h
      rw [if_neg (hp cmd (List.mem_cons_self cmd rest))] at h
      have hp' : ∀ c0, c0 ∈ rest → c0.kind ≠ CmdKind.Pipe :=
        fun c0 hm => hp c0 (List.mem_cons_of_mem cmd hm)
      cases hout : env.blocking prog args with
      | ok o =>
        rw [hout] at h
        simp only [] at h
        exact run_rest_err env rest cmd _ er hp' h
      | error e =>
        rw [hout] at h
        simp only [] at h
        cases hh : handle_cmd_error st0.ret e with
        | ok rr =>
          rw [hh] at h
          exact run_rest_err env rest cmd _ er hp' h
        | error k =>
          rw [hh] at h
          simp at h
          rw [← h, handle_err_other _ e k hh]
          exact Or.inr rfl


/-! ## Claim theorems -/

/-- C1: the claim says an AndThen link short-circuits on ANY nonzero prior
exit code.  The code only checks for exit code exactly 1 (`if let Some(1)`
in `run_cmd`): with prior exit code 2 (program "a" exits 2 under `envStd`)
the next segment of "a && b" is run and folded, and the final status is 0
instead of the retained 2 the claim requires. -/
theorem c1_and_checks_only_exit_one :
    run_all_cmd envStd (parse_cmd_line "a && b") =
      Except.ok
        ⟨⟨some 0, none, "", ""⟩, none, 0,
         [Ev.ran "a" [] none (some ⟨ProcStatus.exited 2, "", ""⟩),
          Ev.ran "b" [] none (some okOutput)]⟩ := by
  decide

/-- C2: the claim says the segment skipped by an AndThen short-circuit is
never spawned.  In the code `Command::output()` is called at the top of
`run_cmd` before the AndThen check, so for "false && true" the program
"true" is run to completion (its result then discarded): the trace of the
run contains a blocking execution of "true", even though the final status
is the retained `some 1`. -/
theorem c2_aborted_segment_still_runs :
    run_all_cmd envStd (parse_cmd_line "false && true") =
      Except.ok
        ⟨⟨some 1, none, "", ""⟩, none, 0,
         [Ev.ran "false" [] none (some ⟨ProcStatus.exited 1, "", ""⟩),
          Ev.ran "true" [] none (some okOutput)]⟩ ∧
    Ev.ran "true" [] none (some okOutput) ∈
      [Ev.ran "false" [] none (some ⟨ProcStatus.exited 1, "", ""⟩),
       Ev.ran "true" [] none (some okOutput)] := by
  decide

/-- C3: the claim says each segment at index i >= 1 is spawned exactly
once (detached only for a Pipe segment, blocking only otherwise).  Because
of the eager `Command::output()` at the top of `run_cmd`, in
"p | q | r" the Pipe segment "q" is run to completion in blocking mode AND
spawned detached, and the consumer "r" is run to completion twice in
blocking mode (once without the pipe as stdin, once with it). -/
theorem c3_segments_run_twice :
    run_all_cmd envStd (parse_cmd_line "p | q | r") =
      Except.ok
        ⟨⟨some 0, none, "", ""⟩, none, 2,
         [Ev.spawned 0 "p" [] none,
          Ev.ran "q" [] none (some okOutput),
          Ev.spawned 1 "q" [] (some 0),
          Ev.ran "r" [] none (some okOutput),
          Ev.ran "r" [] (some 1) (some okOutput)]⟩ := by
  decide

/-- C4 counterexample: the claim says a NotFound spawn failure is absorbed
at every segment position including Pipe-linked stages.  For
"nosuch | cat" the detached spawn of the Pipe stage uses `spawn()?`, so
the NotFound error escapes the whole run as a fatal error. -/
theorem c4_pipe_not_found_is_fatal :
    run_all_cmd envStd (parse_cmd_line "nosuch | cat") =
      Except.error (Err.fatal IOErrorKind.notFound) := by
  decide

/-- C4 amended: absorption of NotFound/PermissionDenied into synthetic
127/126 results holds only for blocking invocations; a detached (Pipe)
spawn propagates every error kind.  Hence in an expression with no
Pipe-linked segment, a NotFound or PermissionDenied spawn failure never
escapes the run. -/
theorem c4_amended (env : Env) (cmds : List Cmd)
    (hp : ∀ c0, c0 ∈ cmds → c0.kind ≠ CmdKind.Pipe) :
    run_all_cmd env cmds ≠ Except.error (Err.fatal IOErrorKind.notFound) ∧
    run_all_cmd env cmds ≠ Except.error (Err.fatal IOErrorKind.permissionDenied) := by
  constructor <;> intro h <;>
    rcases run_all_err env cmds _ hp h with h2 | h2 <;> simp at h2

theorem c4_amended_witness :
    (∀ c0, c0 ∈ [(⟨CmdKind.Single, "nosuch"⟩ : Cmd)] → c0.kind ≠ CmdKind.Pipe) ∧
    (run_all_cmd envStd [⟨CmdKind.Single, "nosuch"⟩] ≠
        Except.error (Err.fatal IOErrorKind.notFound) ∧
      run_all_cmd envStd [⟨CmdKind.Single, "nosuch"⟩] ≠
        Except.error (Err.fatal IOErrorKind.permissionDenied)) :=
  ⟨by decide, c4_amended envStd [⟨CmdKind.Single, "nosuch"⟩] (by decide)⟩

/-- C5: the claim says an expression with none of the three operator
tokens is one segment carrying the full program name and arguments.  The
regex character class of `parse_cmd_line` also excludes the literal
characters ( ) \x7b \x7d and 2, so "sleep 2" (which contains no operator
token) is parsed as the single segment "sleep " and the argument "2" is
dropped from the text entirely. -/
theorem c5_segmenter_drops_class_chars :
    parse_cmd_line "sleep 2" = [⟨CmdKind.Single, "sleep "⟩] ∧
    occursIn ['2'] "sleep ".toList = false := by
  decide


/-- C6 counterexample: the claim says the not-found diagnostic is
"command not found: <program>" and contains the program name.  Running
"nosuch" (NotFound under `envStd`) yields exit code 127 and the fixed
diagnostic "nrbt: command not found", which does not contain the program
name "nosuch" at all. -/
theorem c6_diagnostic_lacks_program_name :
    run_all_cmd envStd (parse_cmd_line "nosuch") =
      Except.ok
        ⟨⟨some 127, none, "nrbt: command not found", ""⟩, none, 0,
         [Ev.ran "nosuch" [] none none]⟩ ∧
    occursIn "nosuch".toList "nrbt: command not found".toList = false ∧
    "nrbt: command not found" ≠ "command not found: nosuch" := by
  decide

/-- C6 amended: on NotFound the invoker synthesizes exit code 127 with no
signal, appends the fixed diagnostic "nrbt: command not found" (which does
not include the program name) to stderr, and the run continues without a
fatal error, as the full run of "nosuch" shows. -/
theorem c6_amended :
    (∀ r : CmdReturn,
      handle_cmd_error r IOErrorKind.notFound =
        Except.ok { r with
          status := some 127
          signal := none
          stderr := r.stderr ++ "nrbt: command not found" }) ∧
    run_all_cmd envStd (parse_cmd_line "nosuch") =
      Except.ok
        ⟨⟨some 127, none, "nrbt: command not found", ""⟩, none, 0,
         [Ev.ran "nosuch" [] none none]⟩ :=
  ⟨fun _ => rfl, by decide⟩

/-- C7 counterexample: the claim says every segment text is trimmed of
surrounding whitespace and that a unit empty after trimming yields no
segment.  Parsing "true ; " yields a first segment whose text "true "
still ends in whitespace, and a second segment " " consisting only of
whitespace (instead of being dropped). -/
theorem c7_untrimmed_and_ws_segment :
    parse_cmd_line "true ; " =
      [⟨CmdKind.SemiCol, "true "⟩, ⟨CmdKind.Single, " "⟩] ∧
    "true ".toList.getLast? = some ' ' ∧
    " ".toList.all Char.isWhitespace = true := by
  decide

/-- C7 amended: every produced segment text is non-empty as a string;
leading whitespace is stripped from a unit but trailing whitespace before
a separator is kept, and a whitespace-only unit yields a segment holding a
single whitespace character rather than no segment. -/
theorem c7_amended :
    (∀ (s : String) (c : Cmd), c ∈ parse_cmd_line s → c.cmd_line ≠ "") ∧
    parse_cmd_line "true ; " =
      [⟨CmdKind.SemiCol, "true "⟩, ⟨CmdKind.Single, " "⟩] ∧
    parse_cmd_line "  x " = [⟨CmdKind.Single, "x "⟩] :=
  ⟨fun s c h => scan_texts_ne (s.length + 1) s.toList c h, by decide, by decide⟩

theorem c7_amended_witness :
    ((⟨CmdKind.Single, "x "⟩ : Cmd) ∈ parse_cmd_line "  x ") ∧
    ("x " : String) ≠ "" :=
  ⟨by decide, c7_amended.1 "  x " ⟨CmdKind.Single, "x "⟩ (by decide)⟩

/-- C8 counterexample: the claim says the report contains a
"Started at: ..." line and an "Ended at: ..." line after the Duration
line.  `make_report` never emits either substring (it receives no
timestamps at all), as this concrete report shows. -/
theorem c8_no_timestamp_lines :
    occursIn "Started at:".toList
      (make_report "true" ⟨some 0, none, "", ""⟩ 0).toList = false ∧
    occursIn "Ended at:".toList
      (make_report "true" ⟨some 0, none, "", ""⟩ 0).toList = false := by
  decide

/-- C8 amended: the renderer reproduces the section-6 layout except that
no "Started at"/"Ended at" lines exist: the Duration line is followed
directly by the Stdout and Stderr sections.  Shown bit-for-bit for the
exit-code case, the signal case, and the untouched-aggregate case. -/
theorem c8_amended :
    make_report "true" ⟨some 0, none, "err", "out"⟩ 3 =
      "Run of command: \"true\"\n\nExit code: 0\n\nDuration: 3 seconds\n\nStdout\n------\nout\nStderr\n------\nerr\n" ∧
    make_report "sig" ⟨none, some 9, "", ""⟩ 0 =
      "Run of command: \"sig\"\n\nTerminated by signal: 9\n\nDuration: 0 seconds\n\nStdout\n------\n\nStderr\n------\n\n" ∧
    make_report "x" ⟨none, none, "", ""⟩ 0 =
      "Run of command: \"x\"\n\nDuration: 0 seconds\n\nStdout\n------\n\nStderr\n------\n\n" := by
  decide

/-- C9 counterexample: the claim says that once at least one segment was
executed to a normal process exit, exactly one of exit code and signal is
set.  Running "a | b |" (every segment Pipe-linked) completes with the
program "b" executed to a normal exit in blocking mode (the eager
`output()` call), yet the final aggregate has neither exit code nor
signal set. -/
theorem c9_ran_but_both_none :
    run_all_cmd envStd (parse_cmd_line "a | b |") =
      Except.ok
        ⟨⟨none, none, "", ""⟩, some 1, 2,
         [Ev.spawned 0 "a" [] none,
          Ev.ran "b" [] none (some okOutput),
          Ev.spawned 1 "b" [] (some 0)]⟩ ∧
    Ev.ran "b" [] none (some okOutput) ∈
      [Ev.spawned 0 "a" [] none,
       Ev.ran "b" [] none (some okOutput),
       Ev.spawned 1 "b" [] (some 0)] := by
  decide

/-- C9 amended: after any completed run the aggregate never has both exit
code and signal set, and exactly one of them is set as soon as the
expression has any segment that is not Pipe-linked (equivalently, as soon
as some outcome was folded into the aggregate); both stay unset exactly
for the all-Pipe runs in which no outcome is ever folded. -/
theorem c9_amended (env : Env) (cmds : List Cmd) (st : St)
    (h : run_all_cmd env cmds = Except.ok st) :
    ¬(st.ret.status ≠ none ∧ st.ret.signal ≠ none) ∧
    ((∃ c0, c0 ∈ cmds ∧ c0.kind ≠ CmdKind.Pipe) → exactly_one st.ret) := by
  obtain ⟨h1, h2⟩ := run_all_ok_inv env cmds st h
  refine ⟨?_, h2⟩
  rintro ⟨hs, hg⟩
  rcases h1 with ⟨hs0, _⟩ | (⟨_, hg0⟩ | ⟨hs0, _⟩)
  · exact hs hs0
  · exact hg hg0
  · exact hs hs0

theorem c9_amended_witness :
    run_all_cmd envStd [⟨CmdKind.Single, "t"⟩] =
      Except.ok
        ⟨⟨some 0, none, "", ""⟩, none, 0, [Ev.ran "t" [] none (some okOutput)]⟩ ∧
    (¬((⟨⟨some 0, none, "", ""⟩, none, 0,
        [Ev.ran "t" [] none (some okOutput)]⟩ : St).ret.status ≠ none ∧
       (⟨⟨some 0, none, "", ""⟩, none, 0,
        [Ev.ran "t" [] none (some okOutput)]⟩ : St).ret.signal ≠ none) ∧
     ((∃ c0, c0 ∈ [(⟨CmdKind.Single, "t"⟩ : Cmd)] ∧ c0.kind ≠ CmdKind.Pipe) →
       exactly_one (⟨⟨some 0, none, "", ""⟩, none, 0,
         [Ev.ran "t" [] none (some okOutput)]⟩ : St).ret)) :=
  ⟨by decide, c9_amended envStd [⟨CmdKind.Single, "t"⟩] _ (by decide)⟩

/-- C10: when the previous operator is AndThen and the predecessor was
killed by a signal (status none, signal set), the sequencer does not
short-circuit: the current segment is run blocking and its outcome is
folded into the aggregate. -/
theorem c10_signal_predecessor_runs (env : Env) (cmd_current cmd_last : Cmd)
    (st : St) (sig : Int) (prog : String) (args : List String) (o : Output)
    (hst : st.ret.status = none) (_hsig : st.ret.signal = some sig)
    (hlast : cmd_last.kind = CmdKind.And)
    (hcur : cmd_current.kind ≠ CmdKind.Pipe)
    (hpa : progArgs cmd_current.cmd_line = some (prog, args))
    (hout : env.blocking prog args = Except.ok o) :
    runCmd env cmd_current cmd_last st =
      Except.ok (Run.Continue,
        { st with
            ret := fold_output st.ret o
            trace := st.trace ++ [Ev.ran prog args none (some o)] }) := by
  rw [runCmd, hpa]
  simp only []
  rw [if_neg hcur, hlast]
  have hne : ¬(({ st with
      trace := st.trace ++ [Ev.ran prog args none (env.blocking prog args).toOption] } : St).ret.status
        = some 1) := by
    simp [hst]
  rw [if_neg hne]
  rw [hout]
  rfl

theorem c10_witness :
    ((⟨⟨none, some 9, "", ""⟩, none, 0, []⟩ : St).ret.status = none) ∧
    ((⟨⟨none, some 9, "", ""⟩, none, 0, []⟩ : St).ret.signal = some 9) ∧
    ((⟨CmdKind.And, "x"⟩ : Cmd).kind = CmdKind.And) ∧
    ((⟨CmdKind.Single, "b"⟩ : Cmd).kind ≠ CmdKind.Pipe) ∧
    progArgs (⟨CmdKind.Single, "b"⟩ : Cmd).cmd_line = some ("b", []) ∧
    envStd.blocking "b" [] = Except.ok okOutput ∧
    runCmd envStd ⟨CmdKind.Single, "b"⟩ ⟨CmdKind.And, "x"⟩
        ⟨⟨none, some 9, "", ""⟩, none, 0, []⟩ =
      Except.ok (Run.Continue,
        ⟨⟨some 0, none, "", ""⟩, none, 0, [Ev.ran "b" [] none (some okOutput)]⟩) :=
  ⟨rfl, rfl, rfl, by decide, by decide, rfl,
   c10_signal_predecessor_runs envStd ⟨CmdKind.Single, "b"⟩ ⟨CmdKind.And, "x"⟩
     ⟨⟨none, some 9, "", ""⟩, none, 0, []⟩ 9 "b" [] okOutput rfl rfl rfl
     (by decide) (by decide) rfl⟩

end Nrbt
